import Mathlib

/-!
Verification of the HTMD AMBER build pipeline (`htmd/builder/amber.py`):
the CHARMM→AMBER residue remapper/resegmenter (`_charmmLipid2Amber`),
the terminal-cap applier (`_applyCaps`), the disulfide renaming/bond loop
inside `build`, the rule-table loader (`_readcsvdict`) and the array
reordering helper (`_reorderMol`).  Structures are modelled as the spec's
record-of-arrays over Lean lists; numpy boolean masks become `List Bool`,
fancy indexing becomes `reorderList`, `np.argsort` becomes a sort of
(key, index) pairs.  Coordinates are only ever moved, never computed with,
so they are modelled as integer triples.

Modelling notes.  `np.argsort` is modelled as the stable argsort (ties kept
in original order); every property proved here is insensitive to the
tie-breaking rule, since it is either about the index set as a whole or
about inputs with distinct sort keys.  External collaborators whose sources
are outside this repository — the disulfide distance detector, the
ionization placement, the protein classifier used for default caps, and the
tleap engine itself — enter `build` as opaque function parameters
(`Externals`), and `sequenceID` is modelled from the spec (see its doc
comment).  The tleap script is modelled as a list of `Directive`s carrying
exactly the data each written line interpolates.
-/

namespace Amber

/-- Elementwise masked constant assignment: `xs[mask] = v` on parallel arrays. -/
def maskSet {α : Type} (m : List Bool) (v : α) (xs : List α) : List α :=
  List.zipWith (fun b x => if b then v else x) m xs

/-- Masked read: `xs[mask]`, the selected elements in order. -/
def maskGet {α : Type} (m : List Bool) (xs : List α) : List α :=
  (List.zip m xs).filterMap (fun p => if p.1 then some p.2 else none)

/-- Masked elementwise assignment from a list of values: `xs[mask] = vs`. -/
def maskSetList {α : Type} : List Bool → List α → List α → List α
  | [], _, _ => []
  | _ :: _, [], _ => []
  | true :: m, _ :: xs, v :: vs => v :: maskSetList m xs vs
  | true :: m, x :: xs, [] => x :: maskSetList m xs []
  | false :: m, x :: xs, vs => x :: maskSetList m xs vs

/-- `np.where(mask)[0]`: the indices at which the mask is true. -/
def whereTrue (l : List Bool) : List Nat :=
  (List.range l.length).filter (fun i => l.getD i false)

/-- Fancy indexing `xs[ord]`: the array reindexed by a list of source indices. -/
def reorderList {α : Type} [Inhabited α] (ord : List Nat) (xs : List α) : List α :=
  ord.map (fun i => xs.getD i default)

/-- Lexicographic order on (sort key, original index) pairs; the index
component makes the order total and antisymmetric, so sorting by it is a
stable argsort. -/
def keyLe (a b : Int × Nat) : Prop := a.1 < b.1 ∨ (a.1 = b.1 ∧ a.2 ≤ b.2)

instance : DecidableRel keyLe := fun a b => by
  unfold keyLe; exact inferInstance

instance : IsTotal (Int × Nat) keyLe := by
  constructor
  intro a b
  unfold keyLe
  omega

instance : IsTrans (Int × Nat) keyLe := by
  constructor
  intro a b c hab hbc
  unfold keyLe at hab hbc ⊢
  omega

instance : IsAntisymm (Int × Nat) keyLe := by
  constructor
  intro a b hab hba
  unfold keyLe at hab hba
  have h1 : a.1 = b.1 := by omega
  have h2 : a.2 = b.2 := by omega
  exact Prod.ext h1 h2

/-- `np.argsort v`: the list of indices that sorts `v` ascending, ties kept
in original order. -/
def argsort (v : List Int) : List Nat :=
  ((List.zip v (List.range v.length)).insertionSort keyLe).map (fun p => p.2)

/-- Ascending sort of a list of naturals (the "sorted image" of an index array). -/
def sortNat (l : List Nat) : List Nat :=
  l.insertionSort (fun a b => a ≤ b)

/-- `np.unique`: sorted list of the distinct values. -/
def uniqueSorted (l : List Int) : List Int :=
  (l.insertionSort (fun a b => a ≤ b)).dedup

def seqIDGo {α : Type} [DecidableEq α] : α → Nat → List α → List Nat
  | _, _, [] => []
  | prev, cur, y :: ys =>
    let c := if y = prev then cur else cur + 1
    c :: seqIDGo y c ys

/-- Modelled from the spec: `sequenceID` from `htmd.molecule.util`, whose
source is not part of this repository.  Per the spec it is "a stable,
order-preserving integer grouping key derived from repeated-tuple identity":
scanning the keys in original order, the first atom gets id 1 and the id
increments exactly when the key differs from the previous atom's (1-based,
matching the AMBER residue numbering the callers feed it into). -/
def sequenceID {α : Type} [DecidableEq α] : List α → List Nat
  | [] => []
  | x :: xs => 1 :: seqIDGo x 1 xs

/-- Python `str.split()`: split on runs of whitespace, dropping empty tokens. -/
def tokenizeAux : List Char → List Char → List (List Char)
  | [], cur => if cur.isEmpty then [] else [cur.reverse]
  | c :: cs, cur =>
    if c.isWhitespace then
      if cur.isEmpty then tokenizeAux cs [] else cur.reverse :: tokenizeAux cs []
    else tokenizeAux cs (c :: cur)

def pySplit (s : String) : List String := (tokenizeAux s.toList []).map String.mk

def digitsToNat : Option Nat → List Char → Option Nat
  | acc, [] => acc
  | acc, c :: cs =>
    if '0' ≤ c ∧ c ≤ '9' then
      digitsToNat (some ((acc.getD 0) * 10 + (c.toNat - 48))) cs
    else none

/-- Python `int(s)`: optional surrounding whitespace, optional sign, at least
one decimal digit; `none` when the literal is malformed (Python raises
`ValueError` there). -/
def pyToInt (s : String) : Option Int :=
  let cs := ((s.toList.dropWhile Char.isWhitespace).reverse.dropWhile Char.isWhitespace).reverse
  match cs with
  | '-' :: rest => (digitsToNat none rest).map (fun n => -(n : Int))
  | '+' :: rest => (digitsToNat none rest).map (fun n => (n : Int))
  | rest => (digitsToNat none rest).map (fun n => (n : Int))

/-- `os.path.basename`: everything after the last slash. -/
def basename (p : String) : String :=
  String.mk ((p.toList.reverse.takeWhile (fun c => c ≠ '/')).reverse)

/-- The Structure Model: parallel per-atom arrays plus an explicit bond list
(mirroring the `Molecule` fields touched by the builder). -/
structure Molecule where
  name : List String
  resname : List String
  resid : List Int
  insertion : List String
  chain : List String
  segid : List String
  element : List String
  coords : List (Int × Int × Int)
  beta : List Int
  bonds : List (Nat × Nat)
deriving DecidableEq

def Molecule.natoms (m : Molecule) : Nat := m.name.length

/-- Structure invariant: every per-atom array has the same length. -/
def Molecule.WF (m : Molecule) : Prop :=
  m.resname.length = m.name.length ∧ m.resid.length = m.name.length ∧
  m.insertion.length = m.name.length ∧ m.chain.length = m.name.length ∧
  m.segid.length = m.name.length ∧ m.element.length = m.name.length ∧
  m.coords.length = m.name.length ∧ m.beta.length = m.name.length

instance (m : Molecule) : Decidable m.WF := by
  unfold Molecule.WF; exact inferInstance

/-- `_reorderMol`: apply one index array to every per-atom field
(`mol.__dict__[k][order]`); the bond list is not a per-atom field. -/
def reorderMol (m : Molecule) (ord : List Nat) : Molecule :=
  { m with
    name := reorderList ord m.name
    resname := reorderList ord m.resname
    resid := reorderList ord m.resid
    insertion := reorderList ord m.insertion
    chain := reorderList ord m.chain
    segid := reorderList ord m.segid
    element := reorderList ord m.element
    coords := reorderList ord m.coords
    beta := reorderList ord m.beta }

/-- One row of the conversion table, as stored by `_readcsvdict`. -/
structure Rule where
  replaceresname : String
  replaceatom : String
  order : Int
  natoms : Int
  ter : Bool
deriving DecidableEq

abbrev AtomMap := List (String × Rule)

abbrev ResDict := List (String × AtomMap)

/-- Error taxonomy of the builder (spec §7). -/
inductive BuildError where
  | capacity : BuildError
  | structuralN (seg : String) (resid : Int) : BuildError
  | structuralC (seg : String) (resid : Int) : BuildError
  | validation : BuildError
  | format : BuildError
deriving DecidableEq

/-- The mutable arrays threaded through `_charmmLipid2Amber`'s renaming loop. -/
structure RemapState where
  resname : List String
  name : List String
  neworder : List Int
  begs : List Bool
  fins : List Bool
  begters : List Bool
  finters : List Bool
deriving DecidableEq

/-- `molatomidx`: atoms of the matched residue whose (snapshotted) name is `atom`. -/
def atomMask (molresidx : List Bool) (names : List String) (atom : String) : List Bool :=
  List.zipWith (fun ri n => ri && (n == atom)) molresidx names

/-- Body of the inner loop of `_charmmLipid2Amber`: rewrite resname/name,
record the rule's position in `neworder`, and mark first/last/terminal atoms. -/
def applyRule (molresidx : List Bool) (names : List String) (atom : String) (rule : Rule)
    (s : RemapState) : RemapState :=
  let m := atomMask molresidx names atom
  { resname := maskSet m rule.replaceresname s.resname
    name := maskSet m rule.replaceatom s.name
    neworder := maskSet m rule.order s.neworder
    begs := if rule.order = 0 then maskSet m true s.begs else s.begs
    fins := if rule.order = rule.natoms - 1 then maskSet m true s.fins else s.fins
    begters := if rule.order = 0 ∧ rule.ter = true then maskSet m true s.begters else s.begters
    finters := if rule.order = rule.natoms - 1 ∧ rule.ter = true then
        maskSet m true s.finters
      else s.finters }

/-- Body of the outer loop: one residue name of the rule table.  The residue
mask and the atom-name snapshot (`names = mol.name.copy()`) are computed once
and kept fixed while the atom rules of this residue are applied. -/
def processRes (s : RemapState) (entry : String × AtomMap) : RemapState :=
  let molresidx := s.resname.map (fun r => r == entry.1)
  if molresidx.any (fun b => b) then
    entry.2.foldl (fun t ar => applyRule molresidx s.name ar.1 ar.2 t) s
  else s

def initRemap (mol : Molecule) : RemapState :=
  { resname := mol.resname
    name := mol.name
    neworder := (List.range mol.natoms).map Int.ofNat
    begs := List.replicate mol.natoms false
    fins := List.replicate mol.natoms false
    begters := List.replicate mol.natoms false
    finters := List.replicate mol.natoms false }

def remapAll (mol : Molecule) (rd : ResDict) : RemapState :=
  rd.foldl processRes (initRemap mol)

/-- The scratch beta array: `mol.set('beta', sequenceID(mol.resid))`. -/
def seqBeta (mol : Molecule) : List Int := (sequenceID mol.resid).map Int.ofNat

/-- `np.where(beta == b)[0]`. -/
def whereEq (beta : List Int) (b : Int) : List Nat :=
  (List.range beta.length).filter (fun i => beta.getD i 0 == b)

/-- The two residue-offset loops: for each beta value that owns a group-first
atom, shift the per-residue order keys of its contiguous beta-run by the run's
first array position. -/
def addOffsets (beta : List Int) (betas : List Int) (no : List Int) : List Int :=
  betas.foldl (fun acc b =>
    let beg := (whereEq beta b).headD 0
    let fin := (whereEq beta b).getLastD 0
    acc.mapIdx (fun i x => if beg ≤ i ∧ i ≤ fin then x + Int.ofNat beg else x)) no

/-- The final per-atom sort keys of the remapper. -/
def finalNeworder (mol : Molecule) (rd : ResDict) : List Int :=
  let s := remapAll mol rd
  let sb := seqBeta mol
  addOffsets sb (uniqueSorted (maskGet s.begs sb)) s.neworder

/-- The permutation `idx = np.argsort(neworder)` the Residue Remapper applies. -/
def charmmPerm (mol : Molecule) (rd : ResDict) : List Nat :=
  argsort (finalNeworder mol rd)

/-- One iteration of the resegmentation loop: renumber resids inside the run
and label the run `L<i+1>`. -/
def resegStep (mo : Molecule) (i beg fin : Nat) : Molecule :=
  let m := (List.range mo.natoms).map (fun j => decide (beg ≤ j ∧ j ≤ fin))
  let mo1 := { mo with
    resid := maskSetList m ((sequenceID (maskGet m mo.resname)).map Int.ofNat) mo.resid }
  { mo1 with segid := maskSet m (("L") ++ toString (i + 1)) mo1.segid }

/-- The Resegmenter: one `resegStep` per begin-terminal marker. -/
def resegment (mo : Molecule) (bts fts : List Nat) : Molecule :=
  (List.range bts.length).foldl
    (fun acc i => resegStep acc i (bts.getD i 0) (fts.getD i 0)) mo

/-- `_charmmLipid2Amber`: rename atoms/residues by the rule table, reorder by
the argsort permutation (beta restored to its input values just before the
reorder), then resegment the terminal-delimited runs; more than 999 runs is a
capacity failure (`NameError` in the source). -/
def charmmLipid2Amber (mol : Molecule) (rd : ResDict) : Except BuildError Molecule :=
  let s := remapAll mol rd
  let idx := charmmPerm mol rd
  let mol2 := reorderMol { mol with resname := s.resname, name := s.name } idx
  let bts := whereTrue (reorderList idx s.begters)
  let fts := whereTrue (reorderList idx s.finters)
  if bts.length > 999 then Except.error BuildError.capacity
  else Except.ok (resegment mol2 bts fts)

/-- Number of atoms on segment `seg` carrying residue name `res`
(`np.sum(mol.atomselect('segid S and resname R'))`). -/
def countSegResname (mol : Molecule) (seg res : String) : Nat :=
  ((List.zip mol.segid mol.resname).filter (fun p => p.1 == seg && p.2 == res)).length

def segMask (mol : Molecule) (seg : String) : List Bool :=
  mol.segid.map (fun s => s == seg)

/-- `atomselect('segid S and resid R and name N1 N2 ...', indexes=True)`. -/
def atomIdxWhere (mol : Molecule) (seg : String) (r : Int) (names : List String) : List Nat :=
  (List.range mol.natoms).filter (fun i =>
    mol.segid.getD i ("") == seg && mol.resid.getD i 0 == r &&
      names.contains (mol.name.getD i ("")))

def capWarning (seg : String) : String :=
  ("ACE and NME caps detected on segid ") ++ seg ++ (".")

def hydWarning (seg : String) (r : Int) : String :=
  ("Segment ") ++ seg ++ (", resid ") ++ toString r ++ (" should have H[123] or HT[123] atoms.")

/-- `mol.remove(mask)`: drop the masked atoms from every per-atom array. -/
def removeAtoms (m : Molecule) (torem : List Bool) : Molecule :=
  let keep := torem.map (fun b => !b)
  { m with
    name := maskGet keep m.name
    resname := maskGet keep m.resname
    resid := maskGet keep m.resid
    insertion := maskGet keep m.insertion
    chain := maskGet keep m.chain
    segid := maskGet keep m.segid
    element := maskGet keep m.element
    coords := maskGet keep m.coords
    beta := maskGet keep m.beta }

/-- One segment of `_applyCaps`.  Returns the updated molecule and the warnings
logged; terminal-candidate lookup failure is the fatal `AssertionError`.
The guard at the top tests for the literal residue names ACE and NME. -/
def applyCapsSeg (mol : Molecule) (seg ncap ccap : String) :
    Except BuildError (Molecule × List String) :=
  let ace := countSegResname mol seg ("ACE")
  let nme := countSegResname mol seg ("NME")
  if ace ≠ 0 ∧ nme ≠ 0 then Except.ok (mol, [capWarning seg])
  else
    let segm := segMask mol seg
    let segfirst := (whereTrue segm).headD 0
    let seglast := (whereTrue segm).getLastD 0
    let resids := uniqueSorted (maskGet segm mol.resid)
    let minres := resids.headD 0
    let maxres := resids.getLastD 0
    let nt0 := atomIdxWhere mol seg minres [("H2"), ("HT2")]
    let ntE : Except BuildError (List Nat) :=
      if nt0.length = 1 then Except.ok nt0
      else
        let f := atomIdxWhere mol seg minres [("H")]
        if f.length = 1 then Except.ok f
        else Except.error (BuildError.structuralN seg minres)
    let ct0 := atomIdxWhere mol seg maxres [("OXT"), ("OT1")]
    let ctE : Except BuildError (List Nat) :=
      if ct0.length = 1 then Except.ok ct0
      else
        let f := atomIdxWhere mol seg maxres [("O")]
        if f.length = 1 then Except.ok f
        else Except.error (BuildError.structuralC seg maxres)
    do
      let nt ← ntE
      let ct ← ctE
      let n0 := nt.headD 0
      let c0 := ct.headD 0
      let mol1 := { mol with
        resname := (mol.resname.set n0 ncap).set c0 ccap
        name := (mol.name.set n0 ("C")).set c0 ("N")
        resid := (mol.resid.set n0 (minres - 1)).set c0 (maxres + 1) }
      let ord1 := ((((List.range mol.natoms).set n0 segfirst).set segfirst n0).set
        c0 seglast).set seglast c0
      let mol2 := reorderMol mol1 ord1
      let torem := (List.range mol2.natoms).map (fun i =>
        mol2.segid.getD i ("") == seg && mol2.resid.getD i 0 == minres &&
          [("H1"), ("H3"), ("HT1"), ("HT3")].contains (mol2.name.getD i ("")))
      let w := if torem.count true ≠ 2 then [hydWarning seg minres] else []
      Except.ok (removeAtoms mol2 torem, w)

/-- `_applyCaps`: fold over the cap configuration, threading the molecule and
accumulating warnings. -/
def applyCaps (mol : Molecule) (caps : List (String × String × String)) :
    Except BuildError (Molecule × List String) :=
  caps.foldl (fun acc c => do
    let mw ← acc
    let mw2 ← applyCapsSeg mw.1 c.1 c.2.1 c.2.2
    Except.ok (mw2.1, mw.2 ++ mw2.2)) (Except.ok (mol, []))

/-- A candidate disulfide pair (two residues identified by segid/resid). -/
structure DisuPair where
  segid1 : String
  resid1 : Int
  segid2 : String
  resid2 : Int
deriving DecidableEq

def DisuPair.swap (d : DisuPair) : DisuPair :=
  { segid1 := d.segid2, resid1 := d.resid2, segid2 := d.segid1, resid2 := d.resid1 }

/-- `uqseqid = sequenceID((mol.resid, mol.insertion, mol.segid)) + mol.resid[0] - 1`. -/
def uqseqid (mol : Molecule) : List Int :=
  (sequenceID (List.zip mol.resid (List.zip mol.insertion mol.segid))).map
    (fun n => (Int.ofNat n) + mol.resid.headD 0 - 1)

def pairMask (mol : Molecule) (sg : String) (r : Int) : List Bool :=
  List.zipWith (fun s ri => s == sg && ri == r) mol.segid mol.resid

/-- A line of the generated tleap script. -/
inductive Directive where
  | comment (s : String)
  | source (f : String)
  | loadamberparams (p : String)
  | loadamberprep (t : String)
  | loadpdb
  | bond (u1 u2 : Int)
  | saveamberparm (pfx : String)
  | quit
deriving DecidableEq

/-- `int(np.unique(values))`: demands exactly one distinct value. -/
def uniqueInt (l : List Int) : Except BuildError Int :=
  match uniqueSorted l with
  | [u] => Except.ok u
  | _ => Except.error BuildError.validation

/-- One iteration of the disulfide loop in `build`: compute the two unique
sequence ids (`int(np.unique(...))` demands exactly one value), rename both
residues to CYX, and emit the `bond mol.<u1>.SG mol.<u2>.SG` directive. -/
def disulfideStep (mol : Molecule) (d : DisuPair) :
    Except BuildError (Molecule × Directive) := do
  let uq := uqseqid mol
  let m1 := pairMask mol d.segid1 d.resid1
  let m2 := pairMask mol d.segid2 d.resid2
  let u1 ← uniqueInt (maskGet m1 uq)
  let u2 ← uniqueInt (maskGet m2 uq)
  let molr := { mol with resname := maskSet m2 ("CYX") (maskSet m1 ("CYX") mol.resname) }
  Except.ok (molr, Directive.bond u1 u2)

def processDisulfides (mol : Molecule) (ds : List DisuPair) :
    Except BuildError (Molecule × List Directive) :=
  ds.foldl (fun acc d => do
    let ml ← acc
    let md ← disulfideStep ml.1 d
    Except.ok (md.1, ml.2 ++ [md.2])) (Except.ok (mol, []))

/-- One data row of the conversion csv (the named columns `_readcsvdict` reads). -/
structure CsvRow where
  search : String
  replace : String
  order : String
  num_atom : String
  TER : String
deriving DecidableEq

/-- Row parsing of `_readcsvdict`: `search`/`replace` are whitespace-split and
their first two tokens taken (an out-of-range access raises), `order` and
`num_atom` go through `int(...)`, and `TER` is compared against the literal
string True — any other value silently becomes `false`.  Returns the
(legacy residue, legacy atom) key and the stored `Rule`. -/
def parseRow (row : CsvRow) : Except BuildError ((String × String) × Rule) :=
  match pySplit row.search, pySplit row.replace, pyToInt row.order, pyToInt row.num_atom with
  | a0 :: a1 :: _, b0 :: b1 :: _, some o, some n =>
    Except.ok ((a1, a0),
      { replaceresname := b1, replaceatom := b0, order := o, natoms := n,
        ter := row.TER == ("True") })
  | _, _, _, _ => Except.error BuildError.format

/-- Nested insertion `resdict[searchres][searchatm] = rule` (Python dicts keep
insertion order; an existing key is overwritten in place). -/
def setAssoc {ν : Type} (k : String) (v : ν) : List (String × ν) → List (String × ν)
  | [] => [(k, v)]
  | (k0, v0) :: rest => if k = k0 then (k, v) :: rest else (k0, v0) :: setAssoc k v rest

def rdInsert (rd : ResDict) (res atm : String) (r : Rule) : ResDict :=
  match rd.lookup res with
  | some amap => setAssoc res (setAssoc atm r amap) rd
  | none => rd ++ [(res, [(atm, r)])]

/-- `_readcsvdict` over the data rows: parse each row in order, failing on the
first malformed one. -/
def readcsvdict (rows : List CsvRow) : Except BuildError ResDict :=
  rows.foldl (fun acc row => do
    let rd ← acc
    let kr ← parseRow row
    Except.ok (rdInsert rd kr.1.1 kr.1.2 kr.2)) (Except.ok [])

/-- The caller-configurable options of `build` that steer the modelled
control flow (`caps = none` means "use the default protein caps";
`disulfide = none` means "detect"). -/
structure BuildConfig where
  ff : List String
  topo : List String
  param : List String
  pfx : String
  caps : Option (List (String × String × String))
  ionize : Bool
  disulfide : Option (List DisuPair)
  execute : Bool
deriving DecidableEq

/-- The external collaborators of the orchestrator, taken as parameters: the
loaded conversion table, the distance-based disulfide detector, the
ionization rebuild input (`ionizePlace` composed with `ionizef`), and the
protein classifier used by `_defaultCaps`. -/
structure Externals where
  resdict : ResDict
  detect : Molecule → List DisuPair
  ionizer : Molecule → Molecule
  protSegs : Molecule → List String

def defaultCaps (ext : Externals) (mol : Molecule) : List (String × String × String) :=
  (ext.protSegs mol).map (fun s => (s, ("ACE"), ("NME")))

/-- The generated tleap input, in the exact order `build` writes its lines. -/
def scriptLines (cfg : BuildConfig) (bondDirs : List Directive) : List Directive :=
  [Directive.comment ("tleap file generated by amber.build")]
    ++ cfg.ff.map Directive.source
    ++ [Directive.comment ("Loading ions and TIP3P water parameters"),
        Directive.loadamberparams ("frcmod.ionsjc_tip3p"),
        Directive.comment ("Loading parameter files")]
    ++ cfg.param.map (fun p => Directive.loadamberparams (basename p))
    ++ [Directive.comment ("Loading prepi topologies")]
    ++ cfg.topo.map (fun t => Directive.loadamberprep (basename t))
    ++ [Directive.comment ("Loading the system"), Directive.loadpdb]
    ++ (if bondDirs.isEmpty then [] else [Directive.comment ("Adding disulfide bonds")])
    ++ bondDirs
    ++ [Directive.comment ("Writing out the results"),
        Directive.saveamberparm cfg.pfx, Directive.quit]

/-- One pass of `build` up to the tleap invocation: copy the input and drop
its bonds, choose the cap configuration, convert naming, apply caps, process
disulfides (only when not ionizing), and assemble the script.  Returns the
prepared molecule, the script, and the warnings logged. -/
def buildPass (ext : Externals) (mol0 : Molecule) (cfg : BuildConfig) :
    Except BuildError (Molecule × List Directive × List String) := do
  let mol := { mol0 with bonds := [] }
  let capcfg := cfg.caps.getD (defaultCaps ext mol)
  let mol ← charmmLipid2Amber mol ext.resdict
  let molw ← applyCaps mol capcfg
  let disu := match cfg.disulfide with
    | some l => l
    | none => if cfg.ionize = false then ext.detect molw.1 else []
  let mold ←
    if cfg.ionize = false ∧ disu ≠ [] then processDisulfides molw.1 disu
    else Except.ok (molw.1, [])
  Except.ok (mold.1, scriptLines cfg mold.2, molw.2)

/-- The `build` orchestrator.  A successful executed pass with `ionize` set
rebuilds once: the recursive call gets the ionized molecule, `ionize=False`
and `caps={}` (the user's disulfide option is forwarded unchanged).  Returns
the configurations of the executed passes and the final outcome. -/
def build (ext : Externals) (mol : Molecule) (cfg : BuildConfig) :
    List BuildConfig × Except BuildError (Molecule × List Directive) :=
  match buildPass ext mol cfg with
  | Except.error e => ([cfg], Except.error e)
  | Except.ok (molp, script, _) =>
    if h : cfg.execute = true ∧ cfg.ionize = true then
      let r := build ext (ext.ionizer molp) { cfg with ionize := false, caps := some [] }
      (cfg :: r.1, r.2)
    else ([cfg], Except.ok (molp, script))
termination_by (if cfg.ionize then 1 else 0)
decreasing_by simp [h.2]

instance {ε α : Type} [DecidableEq ε] [DecidableEq α] : DecidableEq (Except ε α) := fun a b =>
  match a, b with
  | Except.error e, Except.error f =>
    if h : e = f then isTrue (by rw [h]) else isFalse (fun hh => h (Except.error.injEq .. ▸ hh))
  | Except.error _, Except.ok _ => isFalse (fun hh => Except.noConfusion hh)
  | Except.ok _, Except.error _ => isFalse (fun hh => Except.noConfusion hh)
  | Except.ok x, Except.ok y =>
    if h : x = y then isTrue (by rw [h]) else isFalse (fun hh => h (Except.ok.injEq .. ▸ hh))

/-! Generic lemmas about the array helpers. -/

theorem argsort_perm (v : List Int) : (argsort v).Perm (List.range v.length) := by
  have h1 : (List.zip v (List.range v.length)).insertionSort keyLe
      |>.Perm (List.zip v (List.range v.length)) := List.perm_insertionSort _ _
  have h2 := h1.map (fun p : Int × Nat => p.2)
  have h3 : (List.zip v (List.range v.length)).map (fun p : Int × Nat => p.2)
      = List.range v.length := by
    have := List.map_snd_zip v (List.range v.length) (by simp)
    simpa [Prod.snd] using this
  unfold argsort
  rw [h3] at h2
  exact h2

theorem length_argsort (v : List Int) : (argsort v).length = v.length := by
  have := (argsort_perm v).length_eq
  simpa using this

theorem sortNat_argsort (v : List Int) : sortNat (argsort v) = List.range v.length := by
  unfold sortNat
  have hperm : ((argsort v).insertionSort (fun a b => a ≤ b)).Perm (List.range v.length) :=
    (List.perm_insertionSort _ _).trans (argsort_perm v)
  have hs1 : List.Sorted (fun a b : Nat => a ≤ b) ((argsort v).insertionSort (fun a b => a ≤ b)) :=
    List.sorted_insertionSort _ _
  have hs2 : List.Sorted (fun a b : Nat => a ≤ b) (List.range v.length) :=
    List.Pairwise.imp (fun h => Nat.le_of_lt h) (List.pairwise_lt_range _)
  exact List.eq_of_perm_of_sorted hperm hs1 hs2

theorem map_getD_range {α : Type} [Inhabited α] (xs : List α) :
    (List.range xs.length).map (fun i => xs.getD i default) = xs := by
  induction xs with
  | nil => rfl
  | cons x t ih =>
    rw [List.length_cons, List.range_succ_eq_map, List.map_cons, List.map_map]
    have h2 : (List.range t.length).map ((fun i => (x :: t).getD i default) ∘ Nat.succ) = t := by
      have h3 : ((fun i => (x :: t).getD i default) ∘ Nat.succ)
          = (fun i => t.getD i default) := by
        funext i
        exact List.getD_cons_succ
      rw [h3]
      exact ih
    rw [h2]
    rfl

theorem reorderList_range {α : Type} [Inhabited α] (xs : List α) :
    reorderList (List.range xs.length) xs = xs := map_getD_range xs

theorem reorderList_length {α : Type} [Inhabited α] (ord : List Nat) (xs : List α) :
    (reorderList ord xs).length = ord.length := by
  unfold reorderList
  simp

theorem mem_reorderList {α : Type} [Inhabited α] {ord : List Nat} {xs : List α}
    (hord : ord.Perm (List.range xs.length)) :
    ∀ y ∈ reorderList ord xs, y ∈ xs := by
  intro y hy
  unfold reorderList at hy
  obtain ⟨i, hi, hgy⟩ := List.mem_map.mp hy
  have hilt : i < xs.length := List.mem_range.mp (hord.mem_iff.mp hi)
  rw [List.getD_eq_getElem?_getD, List.getElem?_eq_getElem hilt] at hgy
  subst hgy
  exact List.getElem_mem hilt

theorem reorderList_perm {α : Type} [Inhabited α] {ord : List Nat} {xs : List α}
    (hord : ord.Perm (List.range xs.length)) : (reorderList ord xs).Perm xs := by
  have h1 : (reorderList ord xs).Perm (reorderList (List.range xs.length) xs) :=
    hord.map (fun i => xs.getD i default)
  rw [reorderList_range] at h1
  exact h1

theorem whereTrue_length (l : List Bool) : (whereTrue l).length = l.count true := by
  unfold whereTrue
  induction l with
  | nil => rfl
  | cons b t ih =>
    rw [List.length_cons, List.range_succ_eq_map, List.count_cons]
    rw [List.filter_cons]
    have hcomp : (List.filter (fun i => (b :: t).getD i false) ((List.range t.length).map
        Nat.succ)) = (List.filter ((fun i => (b :: t).getD i false) ∘ Nat.succ)
          (List.range t.length)).map Nat.succ := List.filter_map _ _
    have hfun : ((fun i => (b :: t).getD i false) ∘ Nat.succ)
        = (fun i => t.getD i false) := by
      funext i
      exact List.getD_cons_succ
    rw [hcomp, hfun] at *
    cases b <;> simp_all [Nat.add_comm]

theorem maskSet_length {α : Type} (m : List Bool) (v : α) (xs : List α) :
    (maskSet m v xs).length = min m.length xs.length := by
  unfold maskSet
  simp

theorem maskSet_false {α : Type} : ∀ (m : List Bool) (v : α) (xs : List α),
    (∀ b ∈ m, b = false) → xs.length ≤ m.length → maskSet m v xs = xs
  | [], _, xs, _, hl => by
    have h0 : xs = [] := List.length_eq_zero.mp (Nat.le_zero.mp (by simpa using hl))
    subst h0; rfl
  | _ :: _, _, [], _, _ => rfl
  | b :: t, v, x :: xt, hf, hl => by
    have hb : b = false := hf b (List.mem_cons_self b t)
    subst hb
    show List.zipWith (fun b x => if b = true then v else x) (false :: t) (x :: xt) = x :: xt
    rw [List.zipWith_cons_cons, if_neg Bool.false_ne_true]
    have ht := maskSet_false t v xt (fun c hc => hf c (List.mem_cons_of_mem _ hc))
      (by simpa using Nat.le_of_succ_le_succ (by simpa using hl))
    rw [show List.zipWith (fun b x => if b = true then v else x) t xt = maskSet t v xt from rfl,
      ht]

theorem maskGet_false {α : Type} : ∀ (m : List Bool) (xs : List α),
    (∀ b ∈ m, b = false) → maskGet m xs = []
  | [], _, _ => rfl
  | _ :: _, [], _ => rfl
  | b :: t, x :: xt, hf => by
    have hb : b = false := hf b (List.mem_cons_self b t)
    subst hb
    have ih := maskGet_false t xt (fun c hc => hf c (List.mem_cons_of_mem _ hc))
    show ((false, x) :: List.zip t xt).filterMap
      (fun p => if p.1 = true then some p.2 else none) = []
    rw [List.filterMap_cons]
    exact ih

theorem mem_maskSet {α : Type} : ∀ (m : List Bool) (v : α) (xs : List α) (y : α),
    y ∈ maskSet m v xs → y = v ∨ y ∈ xs
  | [], v, xs, y, hy => by simp [maskSet] at hy
  | _ :: _, v, [], y, hy => by simp [maskSet] at hy
  | b :: t, v, x :: xt, y, hy => by
    have hy2 : y ∈ (if b = true then v else x) :: maskSet t v xt := hy
    rcases List.mem_cons.mp hy2 with h | h
    · cases b with
      | false => right; rw [if_neg Bool.false_ne_true] at h; exact h ▸ List.mem_cons_self x xt
      | true => left; rw [if_pos rfl] at h; exact h
    · rcases mem_maskSet t v xt y h with h2 | h2
      · left; exact h2
      · right; exact List.mem_cons_of_mem _ h2

theorem maskSetList_length {α : Type} : ∀ (m : List Bool) (xs vs : List α),
    (maskSetList m xs vs).length = min m.length xs.length
  | [], xs, vs => by simp [maskSetList]
  | _ :: _, [], _ => by simp [maskSetList]
  | true :: t, x :: xs, [] => by
    show (x :: maskSetList t xs []).length = _
    rw [List.length_cons, maskSetList_length t xs []]
    simp [Nat.succ_min_succ]
  | true :: t, x :: xs, v :: vs => by
    show (v :: maskSetList t xs vs).length = _
    rw [List.length_cons, maskSetList_length t xs vs]
    simp [Nat.succ_min_succ]
  | false :: t, x :: xs, vs => by
    show (x :: maskSetList t xs vs).length = _
    rw [List.length_cons, maskSetList_length t xs vs]
    simp [Nat.succ_min_succ]

/-! Length invariants: every array of the remap state keeps the atom count. -/

def RemapState.lenOK (s : RemapState) (n : Nat) : Prop :=
  s.resname.length = n ∧ s.name.length = n ∧ s.neworder.length = n ∧
  s.begs.length = n ∧ s.fins.length = n ∧ s.begters.length = n ∧ s.finters.length = n

theorem atomMask_length (molresidx : List Bool) (names : List String) (atom : String) :
    (atomMask molresidx names atom).length = min molresidx.length names.length := by
  unfold atomMask
  simp

theorem applyRule_lenOK {n : Nat} (molresidx : List Bool) (names : List String) (atom : String)
    (rule : Rule) (s : RemapState) (hm : molresidx.length = n) (hn : names.length = n)
    (hs : s.lenOK n) : (applyRule molresidx names atom rule s).lenOK n := by
  obtain ⟨h1, h2, h3, h4, h5, h6, h7⟩ := hs
  have hmask : (atomMask molresidx names atom).length = n := by
    rw [atomMask_length, hm, hn]
    simp
  unfold applyRule RemapState.lenOK
  dsimp only
  refine ⟨?_, ?_, ?_, ?_, ?_, ?_, ?_⟩
  · rw [maskSet_length, hmask, h1]; simp
  · rw [maskSet_length, hmask, h2]; simp
  · rw [maskSet_length, hmask, h3]; simp
  · split
    · rw [maskSet_length, hmask, h4]; simp
    · exact h4
  · split
    · rw [maskSet_length, hmask, h5]; simp
    · exact h5
  · split
    · rw [maskSet_length, hmask, h6]; simp
    · exact h6
  · split
    · rw [maskSet_length, hmask, h7]; simp
    · exact h7

theorem foldRules_lenOK {n : Nat} (molresidx : List Bool) (names : List String)
    (hm : molresidx.length = n) (hn : names.length = n) :
    ∀ (l : AtomMap) (t : RemapState), t.lenOK n →
      (l.foldl (fun t ar => applyRule molresidx names ar.1 ar.2 t) t).lenOK n
  | [], _, ht => ht
  | ar :: rest, t, ht => by
    rw [List.foldl_cons]
    exact foldRules_lenOK molresidx names hm hn rest _
      (applyRule_lenOK molresidx names ar.1 ar.2 t hm hn ht)

theorem processRes_lenOK {n : Nat} (s : RemapState) (entry : String × AtomMap)
    (hs : s.lenOK n) : (processRes s entry).lenOK n := by
  unfold processRes
  dsimp only
  split
  · exact foldRules_lenOK _ _ (by simp [hs.1]) hs.2.1 entry.2 s hs
  · exact hs

theorem foldRes_lenOK {n : Nat} : ∀ (rd : ResDict) (s : RemapState), s.lenOK n →
    (rd.foldl processRes s).lenOK n
  | [], _, hs => hs
  | e :: rest, s, hs => by
    rw [List.foldl_cons]
    exact foldRes_lenOK rest _ (processRes_lenOK s e hs)

theorem initRemap_lenOK (mol : Molecule) (hwf : mol.WF) :
    (initRemap mol).lenOK mol.natoms := by
  obtain ⟨w1, w2, w3, w4, w5, w6, w7, w8⟩ := hwf
  unfold initRemap RemapState.lenOK Molecule.natoms
  simp [w1]

theorem remapAll_lenOK (mol : Molecule) (rd : ResDict) (hwf : mol.WF) :
    (remapAll mol rd).lenOK mol.natoms :=
  foldRes_lenOK rd (initRemap mol) (initRemap_lenOK mol hwf)

theorem addOffsets_length (beta : List Int) : ∀ (betas : List Int) (no : List Int),
    (addOffsets beta betas no).length = no.length
  | [], no => rfl
  | b :: rest, no => by
    unfold addOffsets
    rw [List.foldl_cons]
    have ih := addOffsets_length beta rest
    unfold addOffsets at ih
    rw [ih]
    simp

theorem finalNeworder_length (mol : Molecule) (rd : ResDict) (hwf : mol.WF) :
    (finalNeworder mol rd).length = mol.natoms := by
  unfold finalNeworder
  rw [addOffsets_length]
  exact (remapAll_lenOK mol rd hwf).2.2.1

theorem charmmPerm_length (mol : Molecule) (rd : ResDict) (hwf : mol.WF) :
    (charmmPerm mol rd).length = mol.natoms := by
  unfold charmmPerm
  rw [length_argsort]
  exact finalNeworder_length mol rd hwf

theorem charmmPerm_perm (mol : Molecule) (rd : ResDict) (hwf : mol.WF) :
    (charmmPerm mol rd).Perm (List.range mol.natoms) := by
  have h := argsort_perm (finalNeworder mol rd)
  rw [finalNeworder_length mol rd hwf] at h
  exact h

/-! The resegmentation loop rewrites only resid and segid. -/

theorem foldReseg_pres (bts fts : List Nat) : ∀ (l : List Nat) (mo : Molecule),
    (l.foldl (fun acc i => resegStep acc i (bts.getD i 0) (fts.getD i 0)) mo).name = mo.name ∧
    (l.foldl (fun acc i => resegStep acc i (bts.getD i 0) (fts.getD i 0)) mo).resname = mo.resname ∧
    (l.foldl (fun acc i => resegStep acc i (bts.getD i 0) (fts.getD i 0)) mo).insertion = mo.insertion ∧
    (l.foldl (fun acc i => resegStep acc i (bts.getD i 0) (fts.getD i 0)) mo).chain = mo.chain ∧
    (l.foldl (fun acc i => resegStep acc i (bts.getD i 0) (fts.getD i 0)) mo).element = mo.element ∧
    (l.foldl (fun acc i => resegStep acc i (bts.getD i 0) (fts.getD i 0)) mo).coords = mo.coords ∧
    (l.foldl (fun acc i => resegStep acc i (bts.getD i 0) (fts.getD i 0)) mo).beta = mo.beta ∧
    (l.foldl (fun acc i => resegStep acc i (bts.getD i 0) (fts.getD i 0)) mo).bonds = mo.bonds
  | [], mo => ⟨rfl, rfl, rfl, rfl, rfl, rfl, rfl, rfl⟩
  | x :: rest, mo => by
    rw [List.foldl_cons]
    exact foldReseg_pres bts fts rest (resegStep mo x (bts.getD x 0) (fts.getD x 0))

theorem resegment_pres (mo : Molecule) (bts fts : List Nat) :
    (resegment mo bts fts).name = mo.name ∧
    (resegment mo bts fts).resname = mo.resname ∧
    (resegment mo bts fts).insertion = mo.insertion ∧
    (resegment mo bts fts).chain = mo.chain ∧
    (resegment mo bts fts).element = mo.element ∧
    (resegment mo bts fts).coords = mo.coords ∧
    (resegment mo bts fts).beta = mo.beta ∧
    (resegment mo bts fts).bonds = mo.bonds :=
  foldReseg_pres bts fts (List.range bts.length) mo

/-- The molecule as renamed (but not yet reordered) by the rule applications. -/
def remappedMol (mol : Molecule) (rd : ResDict) : Molecule :=
  { mol with resname := (remapAll mol rd).resname, name := (remapAll mol rd).name }

/-- Shape of the success result of `_charmmLipid2Amber`. -/
theorem charmm_ok_eq {mol : Molecule} {rd : ResDict} {m : Molecule}
    (h : charmmLipid2Amber mol rd = Except.ok m) :
    m = resegment
      (reorderMol (remappedMol mol rd) (charmmPerm mol rd))
      (whereTrue (reorderList (charmmPerm mol rd) (remapAll mol rd).begters))
      (whereTrue (reorderList (charmmPerm mol rd) (remapAll mol rd).finters)) := by
  unfold charmmLipid2Amber at h
  dsimp only at h
  split at h
  · exact Except.noConfusion h
  · injection h with h2
    exact h2.symm

/-- When the remapper succeeds, every untouched per-atom field of the output
is the input field reindexed by the remapper's permutation. -/
theorem charmm_fields (mol : Molecule) (rd : ResDict) (m : Molecule)
    (h : charmmLipid2Amber mol rd = Except.ok m) :
    m.coords = reorderList (charmmPerm mol rd) mol.coords ∧
    m.chain = reorderList (charmmPerm mol rd) mol.chain ∧
    m.insertion = reorderList (charmmPerm mol rd) mol.insertion ∧
    m.element = reorderList (charmmPerm mol rd) mol.element ∧
    m.beta = reorderList (charmmPerm mol rd) mol.beta ∧
    m.name = reorderList (charmmPerm mol rd) (remapAll mol rd).name ∧
    m.resname = reorderList (charmmPerm mol rd) (remapAll mol rd).resname := by
  have he := charmm_ok_eq h
  subst he
  obtain ⟨p1, p2, p3, p4, p5, p6, p7, p8⟩ := resegment_pres
    (reorderMol (remappedMol mol rd) (charmmPerm mol rd))
    (whereTrue (reorderList (charmmPerm mol rd) (remapAll mol rd).begters))
    (whereTrue (reorderList (charmmPerm mol rd) (remapAll mol rd).finters))
  exact ⟨p6, p4, p3, p5, p7, p1, p2⟩

/-! Concrete instances used to instantiate the hypotheses of the theorems. -/

def ruleA2 : Rule :=
  { replaceresname := "Y", replaceatom := "B2", order := 1, natoms := 2, ter := true }

def ruleA1 : Rule :=
  { replaceresname := "Y", replaceatom := "B1", order := 0, natoms := 2, ter := false }

def rtX : ResDict := [(("X"), [(("A2"), ruleA2), (("A1"), ruleA1)])]

def molX : Molecule :=
  { name := ["A2", "A1"], resname := ["X", "X"], resid := [1, 1],
    insertion := ["i1", "i2"], chain := ["A", "B"], segid := ["S1", "S2"],
    element := ["C", "N"], coords := [(1, 2, 3), (4, 5, 6)], beta := [7, 8],
    bonds := [] }

def molXout : Molecule :=
  { name := ["B1", "B2"], resname := ["Y", "Y"], resid := [1, 1],
    insertion := ["i2", "i1"], chain := ["B", "A"], segid := ["S2", "S1"],
    element := ["N", "C"], coords := [(4, 5, 6), (1, 2, 3)], beta := [8, 7],
    bonds := [] }

/-- C1: for every input Structure and Rule Table, the permutation the Residue
Remapper constructs (the argsort of the per-atom order keys) is a bijection
over [0, N): its sorted image equals the contiguous index range 0..N-1, and
applying it via `reorder` reindexes every per-atom array by that same
permutation. -/
theorem C1_remapper_permutation_bijection (mol : Molecule) (rd : ResDict) (m : Molecule)
    (hwf : mol.WF) (h : charmmLipid2Amber mol rd = Except.ok m) :
    sortNat (charmmPerm mol rd) = List.range mol.natoms ∧
    m.coords = reorderList (charmmPerm mol rd) mol.coords ∧
    m.chain = reorderList (charmmPerm mol rd) mol.chain ∧
    m.insertion = reorderList (charmmPerm mol rd) mol.insertion ∧
    m.element = reorderList (charmmPerm mol rd) mol.element ∧
    m.name = reorderList (charmmPerm mol rd) (remapAll mol rd).name ∧
    m.resname = reorderList (charmmPerm mol rd) (remapAll mol rd).resname := by
  have hf := charmm_fields mol rd m h
  refine ⟨?_, hf.1, hf.2.1, hf.2.2.1, hf.2.2.2.1, hf.2.2.2.2.2.1, hf.2.2.2.2.2.2⟩
  unfold charmmPerm
  rw [sortNat_argsort, finalNeworder_length mol rd hwf]

theorem C1_witness :
    molX.WF ∧ charmmLipid2Amber molX rtX = Except.ok molXout ∧
    (sortNat (charmmPerm molX rtX) = List.range molX.natoms ∧
     molXout.coords = reorderList (charmmPerm molX rtX) molX.coords ∧
     molXout.chain = reorderList (charmmPerm molX rtX) molX.chain ∧
     molXout.insertion = reorderList (charmmPerm molX rtX) molX.insertion ∧
     molXout.element = reorderList (charmmPerm molX rtX) molX.element ∧
     molXout.name = reorderList (charmmPerm molX rtX) (remapAll molX rtX).name ∧
     molXout.resname = reorderList (charmmPerm molX rtX) (remapAll molX rtX).resname) :=
  ⟨by decide, by decide,
    C1_remapper_permutation_bijection molX rtX molXout (by decide) (by decide)⟩

/-- C10: the Remapper uses the scratch beta field as sequence-id workspace but
restores it before applying the permutation: in the returned Structure the
beta array equals the input's beta reordered by the same permutation as every
other per-atom field, and the atom count is unchanged. -/
theorem C10_scratch_beta_restored (mol : Molecule) (rd : ResDict) (m : Molecule)
    (hwf : mol.WF) (h : charmmLipid2Amber mol rd = Except.ok m) :
    m.beta = reorderList (charmmPerm mol rd) mol.beta ∧
    m.coords = reorderList (charmmPerm mol rd) mol.coords ∧
    m.natoms = mol.natoms := by
  have hf := charmm_fields mol rd m h
  refine ⟨hf.2.2.2.2.1, hf.1, ?_⟩
  have hn : m.name = reorderList (charmmPerm mol rd) (remapAll mol rd).name :=
    hf.2.2.2.2.2.1
  show m.name.length = mol.natoms
  rw [hn, reorderList_length, charmmPerm_length mol rd hwf]

theorem C10_witness :
    molX.WF ∧ charmmLipid2Amber molX rtX = Except.ok molXout ∧
    (molXout.beta = reorderList (charmmPerm molX rtX) molX.beta ∧
     molXout.coords = reorderList (charmmPerm molX rtX) molX.coords ∧
     molXout.natoms = molX.natoms) :=
  ⟨by decide, by decide,
    C10_scratch_beta_restored molX rtX molXout (by decide) (by decide)⟩

/-- Input of the concrete remap-ordering scenario: one residue X whose atoms
appear in file order [A2, A1]; every per-atom payload is an arbitrary value. -/
def molC2in (in1 in2 ch1 ch2 sg1 sg2 el1 el2 : String) (co1 co2 : Int × Int × Int)
    (b1 b2 : Int) : Molecule :=
  { name := ["A2", "A1"], resname := ["X", "X"], resid := [1, 1],
    insertion := [in1, in2], chain := [ch1, ch2], segid := [sg1, sg2],
    element := [el1, el2], coords := [co1, co2], beta := [b1, b2], bonds := [] }

/-- Expected output of the scenario: atoms physically reordered to
[A1-mapped, A2-mapped], every payload moved with its atom. -/
def molC2out (in1 in2 ch1 ch2 sg1 sg2 el1 el2 : String) (co1 co2 : Int × Int × Int)
    (b1 b2 : Int) : Molecule :=
  { name := ["B1", "B2"], resname := ["Y", "Y"], resid := [1, 1],
    insertion := [in2, in1], chain := [ch2, ch1], segid := [sg2, sg1],
    element := [el2, el1], coords := [co2, co1], beta := [b2, b1], bonds := [] }

/-- C2: a Rule Table maps residue X atom A2 to position 1 (of 2, terminal) and
atom A1 to position 0 (of 2, non-terminal); an input residue with atoms in
file order [A2, A1] is physically reordered to [A1-mapped, A2-mapped], every
per-atom payload moving with its atom, whatever the payload values are. -/
theorem C2_remap_concrete_ordering (in1 in2 ch1 ch2 sg1 sg2 el1 el2 : String)
    (co1 co2 : Int × Int × Int) (b1 b2 : Int) :
    charmmLipid2Amber (molC2in in1 in2 ch1 ch2 sg1 sg2 el1 el2 co1 co2 b1 b2) rtX
      = Except.ok (molC2out in1 in2 ch1 ch2 sg1 sg2 el1 el2 co1 co2 b1 b2) := by
  have hperm : charmmPerm (molC2in in1 in2 ch1 ch2 sg1 sg2 el1 el2 co1 co2 b1 b2) rtX
      = [1, 0] := rfl
  have hremap : remapAll (molC2in in1 in2 ch1 ch2 sg1 sg2 el1 el2 co1 co2 b1 b2) rtX
      = { resname := ["Y", "Y"], name := ["B2", "B1"], neworder := [1, 0],
          begs := [false, true], fins := [true, false],
          begters := [false, false], finters := [true, false] } := rfl
  unfold charmmLipid2Amber
  dsimp only
  rw [hperm, hremap]
  rfl

/-! C3: the no-op law.  When no (residue name, atom name) pair of the input
matches any rule, the whole remap loop leaves its state untouched, the final
sort keys stay 0..N-1, the argsort is the identity, and the resegmentation
loop has nothing to do. -/

/-- No atom of the Structure is governed by any rule of the table. -/
def noMatches (mol : Molecule) (rd : ResDict) : Prop :=
  ∀ e ∈ rd, ∀ ar ∈ e.2, ∀ p ∈ List.zip mol.resname mol.name, ¬(p.1 = e.1 ∧ p.2 = ar.1)

instance (mol : Molecule) (rd : ResDict) : Decidable (noMatches mol rd) := by
  unfold noMatches
  exact inferInstance

theorem atomMask_all_false : ∀ (resname names : List String) (res atom : String),
    (∀ p ∈ List.zip resname names, ¬(p.1 = res ∧ p.2 = atom)) →
    ∀ b ∈ atomMask (resname.map (fun r => r == res)) names atom, b = false
  | [], _, _, _, _, b, hb => by simp [atomMask] at hb
  | _ :: _, [], _, _, _, b, hb => by simp [atomMask] at hb
  | r :: rs, n :: ns, res, atom, h, b, hb => by
    have hb2 : b ∈ ((r == res) && (n == atom)) :: atomMask (rs.map (fun x => x == res)) ns atom :=
      hb
    rcases List.mem_cons.mp hb2 with he | he
    · subst he
      have hno : ¬(r = res ∧ n = atom) := h (r, n) (by
        rw [List.zip_cons_cons]
        exact List.mem_cons_self _ _)
      rw [Bool.eq_false_iff]
      intro hc
      rw [Bool.and_eq_true, beq_iff_eq, beq_iff_eq] at hc
      exact hno hc
    · exact atomMask_all_false rs ns res atom
        (fun p hp => h p (List.mem_cons_of_mem _ hp)) b he

theorem applyRule_id {n : Nat} (molresidx : List Bool) (names : List String) (atom : String)
    (rule : Rule) (s : RemapState) (hs : s.lenOK n) (hm : molresidx.length = n)
    (hn : names.length = n)
    (hmask : ∀ b ∈ atomMask molresidx names atom, b = false) :
    applyRule molresidx names atom rule s = s := by
  have hmlen : (atomMask molresidx names atom).length = n := by
    rw [atomMask_length, hm, hn]
    simp
  obtain ⟨h1, h2, h3, h4, h5, h6, h7⟩ := hs
  unfold applyRule
  dsimp only
  have e1 := maskSet_false _ rule.replaceresname s.resname hmask (by rw [hmlen, h1])
  have e2 := maskSet_false _ rule.replaceatom s.name hmask (by rw [hmlen, h2])
  have e3 := maskSet_false _ rule.order s.neworder hmask (by rw [hmlen, h3])
  have e4 := maskSet_false _ true s.begs hmask (by rw [hmlen, h4])
  have e5 := maskSet_false _ true s.fins hmask (by rw [hmlen, h5])
  have e6 := maskSet_false _ true s.begters hmask (by rw [hmlen, h6])
  have e7 := maskSet_false _ true s.finters hmask (by rw [hmlen, h7])
  rw [e1, e2, e3, e4, e5, e6, e7]
  cases s
  simp only [if_pos, if_neg]
  split <;> split <;> split <;> split <;> rfl

theorem foldRules_id {n : Nat} (molresidx : List Bool) (names : List String)
    (hm : molresidx.length = n) (hn : names.length = n) :
    ∀ (l : AtomMap) (s : RemapState), s.lenOK n →
      (∀ ar ∈ l, ∀ b ∈ atomMask molresidx names ar.1, b = false) →
      l.foldl (fun t ar => applyRule molresidx names ar.1 ar.2 t) s = s
  | [], _, _, _ => rfl
  | ar :: rest, s, hs, hall => by
    rw [List.foldl_cons,
      applyRule_id molresidx names ar.1 ar.2 s hs hm hn (hall ar (List.mem_cons_self ar rest))]
    exact foldRules_id molresidx names hm hn rest s hs
      (fun a ha => hall a (List.mem_cons_of_mem _ ha))

theorem processRes_id {n : Nat} (s : RemapState) (e : String × AtomMap) (hs : s.lenOK n)
    (h : ∀ ar ∈ e.2, ∀ p ∈ List.zip s.resname s.name, ¬(p.1 = e.1 ∧ p.2 = ar.1)) :
    processRes s e = s := by
  unfold processRes
  dsimp only
  split
  · exact foldRules_id _ _ (by simp [hs.1]) hs.2.1 e.2 s hs
      (fun ar har => atomMask_all_false s.resname s.name e.1 ar.1 (h ar har))
  · rfl

theorem foldRes_id (mol : Molecule) (hinit : (initRemap mol).lenOK mol.natoms) :
    ∀ (rd : ResDict),
      (∀ e ∈ rd, ∀ ar ∈ e.2, ∀ p ∈ List.zip mol.resname mol.name, ¬(p.1 = e.1 ∧ p.2 = ar.1)) →
      rd.foldl processRes (initRemap mol) = initRemap mol
  | [], _ => rfl
  | e :: rest, h => by
    rw [List.foldl_cons, processRes_id (initRemap mol) e hinit (h e (List.mem_cons_self e rest))]
    exact foldRes_id mol hinit rest (fun e2 he2 => h e2 (List.mem_cons_of_mem _ he2))

theorem remapAll_id (mol : Molecule) (rd : ResDict) (hwf : mol.WF) (h : noMatches mol rd) :
    remapAll mol rd = initRemap mol :=
  foldRes_id mol (initRemap_lenOK mol hwf) rd h

theorem argsort_range_ofNat (n : Nat) : argsort ((List.range n).map Int.ofNat) = List.range n := by
  unfold argsort
  have hlen : ((List.range n).map Int.ofNat).length = n := by simp
  rw [hlen]
  have hzip : List.zip ((List.range n).map Int.ofNat) (List.range n)
      = (List.range n).map (fun i => (Int.ofNat i, i)) := by
    nth_rewrite 2 [show List.range n = (List.range n).map id from (List.map_id _).symm]
    rw [List.zip_map']
    rfl
  rw [hzip]
  have hsorted : List.Sorted keyLe ((List.range n).map (fun i => (Int.ofNat i, i))) := by
    rw [List.Sorted, List.pairwise_map]
    apply List.Pairwise.imp ?_ (List.pairwise_lt_range n)
    intro a b hab
    exact Or.inl (Int.ofNat_lt.mpr hab)
  rw [hsorted.insertionSort_eq, List.map_map]
  calc List.map ((fun p : Int × Nat => p.2) ∘ fun i => (Int.ofNat i, i)) (List.range n)
      = List.map id (List.range n) := List.map_congr_left (fun i _ => rfl)
    _ = List.range n := List.map_id _

theorem reorderMol_range (mol : Molecule) (hwf : mol.WF) :
    reorderMol mol (List.range mol.natoms) = mol := by
  obtain ⟨w1, w2, w3, w4, w5, w6, w7, w8⟩ := hwf
  unfold reorderMol Molecule.natoms
  have r0 := reorderList_range mol.name
  have r1 : reorderList (List.range mol.name.length) mol.resname = mol.resname := by
    rw [← w1]; exact reorderList_range mol.resname
  have r2 : reorderList (List.range mol.name.length) mol.resid = mol.resid := by
    rw [← w2]; exact reorderList_range mol.resid
  have r3 : reorderList (List.range mol.name.length) mol.insertion = mol.insertion := by
    rw [← w3]; exact reorderList_range mol.insertion
  have r4 : reorderList (List.range mol.name.length) mol.chain = mol.chain := by
    rw [← w4]; exact reorderList_range mol.chain
  have r5 : reorderList (List.range mol.name.length) mol.segid = mol.segid := by
    rw [← w5]; exact reorderList_range mol.segid
  have r6 : reorderList (List.range mol.name.length) mol.element = mol.element := by
    rw [← w6]; exact reorderList_range mol.element
  have r7 : reorderList (List.range mol.name.length) mol.coords = mol.coords := by
    rw [← w7]; exact reorderList_range mol.coords
  have r8 : reorderList (List.range mol.name.length) mol.beta = mol.beta := by
    rw [← w8]; exact reorderList_range mol.beta
  rw [r0, r1, r2, r3, r4, r5, r6, r7, r8]

/-- C3: if no atom's (residue name, atom name) pair matches any Rule Table
entry, the Remapper returns the Structure with every field array and the atom
ordering unchanged. -/
theorem C3_noop_law (mol : Molecule) (rd : ResDict) (hwf : mol.WF) (h : noMatches mol rd) :
    charmmLipid2Amber mol rd = Except.ok mol := by
  have hs := remapAll_id mol rd hwf h
  have hperm : charmmPerm mol rd = List.range mol.natoms := by
    unfold charmmPerm finalNeworder
    dsimp only
    rw [hs]
    have hbegs : maskGet (initRemap mol).begs (seqBeta mol) = [] :=
      maskGet_false _ _ (fun b hb => List.eq_of_mem_replicate hb)
    rw [hbegs]
    show argsort (addOffsets (seqBeta mol) (uniqueSorted [])
      ((List.range mol.natoms).map Int.ofNat)) = List.range mol.natoms
    exact argsort_range_ofNat mol.natoms
  unfold charmmLipid2Amber
  dsimp only
  rw [hs, hperm]
  have hid : ({ mol with resname := (initRemap mol).resname, name := (initRemap mol).name } : Molecule) = mol := rfl
  rw [hid]
  have hmol : reorderMol mol (List.range mol.natoms) = mol := reorderMol_range mol hwf
  have hrrep : ∀ n : Nat, reorderList (List.range n) (List.replicate n (false : Bool))
      = List.replicate n false := by
    intro n
    have h2 := reorderList_range (List.replicate n (false : Bool))
    rwa [List.length_replicate] at h2
  have hreplicate : reorderList (List.range mol.natoms) (initRemap mol).begters
      = List.replicate mol.natoms false := by
    show reorderList (List.range mol.natoms) (List.replicate mol.natoms false) = _
    exact hrrep mol.natoms
  have hreplicate2 : reorderList (List.range mol.natoms) (initRemap mol).finters
      = List.replicate mol.natoms false := by
    show reorderList (List.range mol.natoms) (List.replicate mol.natoms false) = _
    exact hrrep mol.natoms
  have hwt : whereTrue (List.replicate mol.natoms false) = [] := by
    apply List.eq_nil_of_length_eq_zero
    rw [whereTrue_length]
    exact List.count_eq_zero.mpr (by simp)
  rw [hreplicate, hreplicate2, hwt, hmol]
  rfl

def rtNone : ResDict := [(("Z"), [(("Q"), ruleA1)])]

theorem C3_witness :
    molX.WF ∧ noMatches molX rtNone ∧ charmmLipid2Amber molX rtNone = Except.ok molX :=
  ⟨by decide, by decide, C3_noop_law molX rtNone (by decide) (by decide)⟩

/-! C6: the 999-segment capacity ceiling of the resegmenter. -/

/-- Number of begin-terminal markers the remapper produces (the number of
boundary-terminated groups). -/
def nbegters (mol : Molecule) (rd : ResDict) : Nat :=
  (remapAll mol rd).begters.count true

theorem charmm_btsLength (mol : Molecule) (rd : ResDict) (hwf : mol.WF) :
    (whereTrue (reorderList (charmmPerm mol rd) (remapAll mol rd).begters)).length
      = nbegters mol rd := by
  rw [whereTrue_length]
  have hlen : (remapAll mol rd).begters.length = mol.natoms :=
    (remapAll_lenOK mol rd hwf).2.2.2.2.2.1
  have hperm : (charmmPerm mol rd).Perm (List.range (remapAll mol rd).begters.length) := by
    rw [hlen]
    exact charmmPerm_perm mol rd hwf
  exact (reorderList_perm hperm).count_eq true

theorem resegment_segid_mem (bts fts : List Nat) (k : Nat) :
    ∀ (l : List Nat) (mo : Molecule), (∀ i ∈ l, i < k) →
      ∀ sg ∈ (l.foldl (fun acc i => resegStep acc i (bts.getD i 0) (fts.getD i 0)) mo).segid,
        sg ∈ mo.segid ∨ ∃ i, i < k ∧ sg = ("L") ++ toString (i + 1)
  | [], _, _, _, hsg => Or.inl hsg
  | x :: rest, mo, hlt, sg, hsg => by
    rw [List.foldl_cons] at hsg
    rcases resegment_segid_mem bts fts k rest _
      (fun i hi => hlt i (List.mem_cons_of_mem _ hi)) sg hsg with h1 | h1
    · have h2 : sg ∈ maskSet ((List.range mo.natoms).map
          (fun j => decide (bts.getD x 0 ≤ j ∧ j ≤ fts.getD x 0)))
          (("L") ++ toString (x + 1)) mo.segid := h1
      rcases mem_maskSet _ _ _ sg h2 with h3 | h3
      · exact Or.inr ⟨x, hlt x (List.mem_cons_self x rest), h3⟩
      · exact Or.inl h3
    · exact Or.inr h1

/-- C6: strictly more than 999 boundary-terminated groups make the
resegmenter fail with the capacity error; with 999 or fewer it succeeds, and
every segment label of the output is either an input label or the fixed
prefix L followed by a 1-based sequential integer bounded by the group
count. -/
theorem C6_capacity_limit (mol : Molecule) (rd : ResDict) (hwf : mol.WF) :
    (999 < nbegters mol rd →
      charmmLipid2Amber mol rd = Except.error BuildError.capacity) ∧
    (nbegters mol rd ≤ (remapAll mol rd).finters.count true →
      nbegters mol rd ≤ 999 →
      ∃ m, charmmLipid2Amber mol rd = Except.ok m ∧
        ∀ sg ∈ m.segid, sg ∈ mol.segid ∨
          ∃ i, i < nbegters mol rd ∧ sg = ("L") ++ toString (i + 1)) := by
  have hbl := charmm_btsLength mol rd hwf
  constructor
  · intro hgt
    unfold charmmLipid2Amber
    dsimp only
    rw [if_pos]
    rw [hbl]
    exact hgt
  · intro hbal hle
    have hc : ¬ (999 < (whereTrue (reorderList (charmmPerm mol rd)
        (remapAll mol rd).begters)).length) := by
      rw [hbl]
      omega
    have hok : charmmLipid2Amber mol rd = Except.ok (resegment
        (reorderMol (remappedMol mol rd) (charmmPerm mol rd))
        (whereTrue (reorderList (charmmPerm mol rd) (remapAll mol rd).begters))
        (whereTrue (reorderList (charmmPerm mol rd) (remapAll mol rd).finters))) := by
      unfold charmmLipid2Amber
      dsimp only
      rw [if_neg hc]
      rfl
    refine ⟨_, hok, ?_⟩
    intro sg hsg
    have hmem := resegment_segid_mem
      (whereTrue (reorderList (charmmPerm mol rd) (remapAll mol rd).begters))
      (whereTrue (reorderList (charmmPerm mol rd) (remapAll mol rd).finters))
      (nbegters mol rd)
      (List.range (whereTrue (reorderList (charmmPerm mol rd)
        (remapAll mol rd).begters)).length)
      (reorderMol (remappedMol mol rd) (charmmPerm mol rd))
      (by
        intro i hi
        rw [← hbl]
        exact List.mem_range.mp hi)
      sg hsg
    rcases hmem with h1 | h1
    · left
      have h2 : sg ∈ reorderList (charmmPerm mol rd) mol.segid := h1
      have hperm2 : (charmmPerm mol rd).Perm (List.range mol.segid.length) := by
        rw [hwf.2.2.2.2.1]
        exact charmmPerm_perm mol rd hwf
      exact mem_reorderList hperm2 sg h2
    · right
      exact h1

/-- 1000 single-atom terminal residues: one boundary-terminated group per atom. -/
def mol1000 : Molecule :=
  { name := List.replicate 1000 ("A"), resname := List.replicate 1000 ("X"),
    resid := (List.range 1000).map Int.ofNat,
    insertion := List.replicate 1000 (""), chain := List.replicate 1000 ("A"),
    segid := List.replicate 1000 ("P"), element := List.replicate 1000 ("C"),
    coords := List.replicate 1000 (0, 0, 0), beta := List.replicate 1000 0, bonds := [] }

def ruleSingle : Rule :=
  { replaceresname := "Y", replaceatom := "B", order := 0, natoms := 1, ter := true }

def rtSingle : ResDict := [(("X"), [(("A"), ruleSingle)])]

set_option maxRecDepth 100000 in
theorem C6_witness :
    charmmLipid2Amber mol1000 rtSingle = Except.error BuildError.capacity ∧
    (∃ m, charmmLipid2Amber molX rtX = Except.ok m ∧
      ∀ sg ∈ m.segid, sg ∈ molX.segid ∨
        ∃ i, i < nbegters molX rtX ∧ sg = ("L") ++ toString (i + 1)) :=
  ⟨(C6_capacity_limit mol1000 rtSingle (by decide)).1 (by decide),
   (C6_capacity_limit molX rtX (by decide)).2 (by decide) (by decide)⟩

/-! C4: idempotence of the Cap Applier.  The skip guard of `_applyCaps` tests
for the literal residue names ACE and NME, not for the configured cap names,
so the claimed idempotence holds exactly when ACE and NME are both present on
the segment — and fails for non-default configured cap names. -/

theorem capsFold_skip : ∀ (caps : List (String × String × String)) (mol : Molecule)
    (ws : List String),
    (∀ c ∈ caps, countSegResname mol c.1 ("ACE") ≠ 0 ∧ countSegResname mol c.1 ("NME") ≠ 0) →
    caps.foldl (fun acc c => do
      let mw ← acc
      let mw2 ← applyCapsSeg mw.1 c.1 c.2.1 c.2.2
      Except.ok (mw2.1, mw.2 ++ mw2.2)) (Except.ok (mol, ws))
      = Except.ok (mol, ws ++ caps.map (fun c => capWarning c.1))
  | [], mol, ws, _ => by simp
  | c :: rest, mol, ws, h => by
    rw [List.foldl_cons]
    have hseg : applyCapsSeg mol c.1 c.2.1 c.2.2 = Except.ok (mol, [capWarning c.1]) := by
      unfold applyCapsSeg
      rw [if_pos (h c (List.mem_cons_self c rest))]
    have hstep : (do
        let mw ← (Except.ok (mol, ws) : Except BuildError (Molecule × List String))
        let mw2 ← applyCapsSeg mw.1 c.1 c.2.1 c.2.2
        Except.ok (mw2.1, mw.2 ++ mw2.2)) = Except.ok (mol, ws ++ [capWarning c.1]) := by
      show (applyCapsSeg mol c.1 c.2.1 c.2.2).bind
        (fun mw2 => Except.ok (mw2.1, ws ++ mw2.2)) = _
      rw [hseg]
      rfl
    rw [hstep, capsFold_skip rest mol (ws ++ [capWarning c.1])
      (fun c2 hc2 => h c2 (List.mem_cons_of_mem _ hc2))]
    simp

/-- C4 (amended): for every segment on which the literal residue names ACE
and NME both already occur — as they do after a first default capping — a
further invocation of the Cap Applier changes neither atom count nor any
field values and only emits a warning, whatever cap names are configured. -/
theorem C4_caps_skip_literal (mol : Molecule) (caps : List (String × String × String))
    (h : ∀ c ∈ caps, countSegResname mol c.1 ("ACE") ≠ 0 ∧ countSegResname mol c.1 ("NME") ≠ 0) :
    applyCaps mol caps = Except.ok (mol, caps.map (fun c => capWarning c.1)) := by
  unfold applyCaps
  rw [capsFold_skip caps mol [] h]
  rfl

/-- A segment that is already capped with configured cap names XXX/YYY (both
occur as residue names) but carries no ACE/NME residues and no capping
candidate atoms. -/
def molCapped : Molecule :=
  { name := ["CA", "CB"], resname := ["XXX", "YYY"], resid := [1, 2], insertion := ["", ""],
    chain := ["A", "A"], segid := ["P", "P"], element := ["C", "C"],
    coords := [(0, 0, 0), (1, 1, 1)], beta := [0, 0], bonds := [] }

/-- C4 counterexample: the configured N-cap and C-cap names XXX and YYY both
occur as residue names on segment P, yet a second invocation of the Cap
Applier raises a structural error instead of warning and leaving the
Structure unchanged — the skip guard looks for ACE/NME only. -/
theorem C4_counterexample :
    (("XXX") ∈ molCapped.resname ∧ ("YYY") ∈ molCapped.resname ∧
      ∀ s ∈ molCapped.segid, s = ("P")) ∧
    applyCaps molCapped [(("P"), ("XXX"), ("YYY"))]
      = Except.error (BuildError.structuralN ("P") 1) := by
  constructor
  · decide
  · rfl

def molAceNme : Molecule :=
  { name := ["C", "N"], resname := ["ACE", "NME"], resid := [0, 3], insertion := ["", ""],
    chain := ["A", "A"], segid := ["P", "P"], element := ["C", "N"],
    coords := [(0, 0, 0), (1, 1, 1)], beta := [0, 0], bonds := [] }

theorem C4_witness :
    applyCaps molAceNme [(("P"), ("XXX"), ("YYY"))]
      = Except.ok (molAceNme, [capWarning ("P")]) :=
  C4_caps_skip_literal molAceNme _ (by decide)

/-! C5: disulfide symmetry.  Renaming is order-independent, but the emitted
bond directive swaps its endpoints when the pair is given swapped. -/

theorem maskSet_comm {α : Type} (v : α) : ∀ (m1 m2 : List Bool) (xs : List α),
    maskSet m1 v (maskSet m2 v xs) = maskSet m2 v (maskSet m1 v xs)
  | [], m2, xs => by simp [maskSet]
  | _ :: _, [], _ => by simp [maskSet]
  | _ :: _, _ :: _, [] => rfl
  | a :: t1, b :: t2, x :: xs => by
    show (if a = true then v else if b = true then v else x) :: maskSet t1 v (maskSet t2 v xs)
      = (if b = true then v else if a = true then v else x) :: maskSet t2 v (maskSet t1 v xs)
    rw [maskSet_comm v t1 t2 xs]
    congr 1
    cases a <;> cases b <;> simp

/-- C5 (amended): processing the swapped pair succeeds exactly when processing
the original pair does, applies the identical residue renaming to the
Structure, and emits the bond directive with its two endpoints swapped (the
same unordered bond, textually reversed). -/
theorem C5_disulfide_swap (mol : Molecule) (d : DisuPair) (m : Molecule) (u1 u2 : Int)
    (h : disulfideStep mol d = Except.ok (m, Directive.bond u1 u2)) :
    disulfideStep mol d.swap = Except.ok (m, Directive.bond u2 u1) := by
  unfold disulfideStep at h ⊢
  dsimp only [DisuPair.swap] at h ⊢
  cases hA : uniqueInt (maskGet (pairMask mol d.segid1 d.resid1) (uqseqid mol)) with
  | error e =>
    rw [hA] at h
    exact absurd h (by simp [Bind.bind, Except.bind])
  | ok a =>
    rw [hA] at h
    cases hB : uniqueInt (maskGet (pairMask mol d.segid2 d.resid2) (uqseqid mol)) with
    | error e =>
      rw [hB] at h
      exact absurd h (by simp [Bind.bind, Except.bind])
    | ok b =>
      rw [hB] at h
      dsimp only [Bind.bind, Except.bind] at h
      rw [Except.ok.injEq, Prod.mk.injEq, Directive.bond.injEq] at h
      obtain ⟨hm, hu1, hu2⟩ := h
      dsimp only [Bind.bind, Except.bind]
      rw [Except.ok.injEq, Prod.mk.injEq, Directive.bond.injEq]
      refine ⟨?_, hu2, hu1⟩
      rw [maskSet_comm]
      exact hm

def molSS : Molecule :=
  { name := ["SG", "SG"], resname := ["CYS", "CYS"], resid := [1, 2],
    insertion := ["", ""], chain := ["A", "A"], segid := ["P", "P"], element := ["S", "S"],
    coords := [(0, 0, 0), (1, 1, 1)], beta := [0, 0], bonds := [] }

def dAB : DisuPair := { segid1 := "P", resid1 := 1, segid2 := "P", resid2 := 2 }

def molSSX : Molecule :=
  { name := ["SG", "SG"], resname := ["CYX", "CYX"], resid := [1, 2],
    insertion := ["", ""], chain := ["A", "A"], segid := ["P", "P"], element := ["S", "S"],
    coords := [(0, 0, 0), (1, 1, 1)], beta := [0, 0], bonds := [] }

/-- C5 counterexample: for the pair (A, B) the patcher emits `bond 1 2`, for
(B, A) it emits `bond 2 1` — the residue renaming agrees but the two emitted
bond directives are not identical, refuting the claim as stated. -/
theorem C5_counterexample :
    disulfideStep molSS dAB = Except.ok (molSSX, Directive.bond 1 2) ∧
    disulfideStep molSS dAB.swap = Except.ok (molSSX, Directive.bond 2 1) ∧
    Directive.bond 1 2 ≠ Directive.bond 2 1 := by
  refine ⟨rfl, rfl, ?_⟩
  decide

theorem C5_witness :
    disulfideStep molSS dAB.swap = Except.ok (molSSX, Directive.bond 2 1) :=
  C5_disulfide_swap molSS dAB molSSX 1 2 (by rfl)

/-! C7: rule-table row parsing.  A row fails exactly when `search` or
`replace` has fewer than two whitespace tokens or `order`/`num_atom` is not
an integer literal; the TER column is never validated (any token other than
the literal True silently becomes `false`), and extra tokens are ignored. -/

theorem lookup_setAssoc {ν : Type} (k : String) (v : ν) : ∀ (l : List (String × ν)),
    (setAssoc k v l).lookup k = some v
  | [] => by simp [setAssoc]
  | (k0, v0) :: rest => by
    by_cases hk : k = k0
    · rw [setAssoc, if_pos hk]
      simp
    · rw [setAssoc, if_neg hk]
      have ih := lookup_setAssoc k v rest
      have hb : (k == k0) = false := by simp [hk]
      simp [List.lookup, ih, hb]

theorem rdInsert_lookup (rd : ResDict) (res atm : String) (r : Rule) :
    ((rdInsert rd res atm r).lookup res).bind (fun am => am.lookup atm) = some r := by
  unfold rdInsert
  split
  · rename_i amap hmap
    rw [lookup_setAssoc]
    dsimp only [Option.bind]
    exact lookup_setAssoc atm r amap
  · rename_i hmap
    rw [List.lookup_append, hmap]
    simp [List.lookup]

/-- C7 (amended): a well-formed row (at least two tokens in each of search
and replace, integer order and num_atom) is stored with exactly the parsed
fields, keyed by (second search token, first search token); a row missing
tokens or with a non-integer number fails with the format error; the stored
rule is retrievable under its two-level key; the TER flag never causes a
failure — it is merely compared against the literal token True. -/
theorem C7_row_parsing (row : CsvRow) :
    (∀ a0 a1 ra b0 b1 rb o n, pySplit row.search = a0 :: a1 :: ra →
      pySplit row.replace = b0 :: b1 :: rb →
      pyToInt row.order = some o → pyToInt row.num_atom = some n →
      parseRow row = Except.ok ((a1, a0),
        { replaceresname := b1, replaceatom := b0, order := o, natoms := n,
          ter := row.TER == ("True") })) ∧
    (((pySplit row.search).length < 2 ∨ (pySplit row.replace).length < 2 ∨
      pyToInt row.order = none ∨ pyToInt row.num_atom = none) →
      parseRow row = Except.error BuildError.format) ∧
    (∀ rd res atm r, ((rdInsert rd res atm r).lookup res).bind
      (fun am => am.lookup atm) = some r) := by
  refine ⟨?_, ?_, fun rd res atm r => rdInsert_lookup rd res atm r⟩
  · intro a0 a1 ra b0 b1 rb o n h1 h2 h3 h4
    unfold parseRow
    rw [h1, h2, h3, h4]
  · intro hbad
    unfold parseRow
    rcases hs : pySplit row.search with _ | ⟨a0, _ | ⟨a1, ra⟩⟩ <;>
      rcases hr : pySplit row.replace with _ | ⟨b0, _ | ⟨b1, rb⟩⟩ <;>
        rcases ho : pyToInt row.order with _ | o <;>
          rcases hn : pyToInt row.num_atom with _ | n <;>
            simp_all <;> omega

def rowBadTER : CsvRow :=
  { search := "A2 POPC extra", replace := "B2 PC", order := "1", num_atom := "2", TER := "yes" }

/-- C7 counterexample: a row whose TER field is not a boolean-like token and
whose search field holds three tokens is accepted — stored with `ter = false`
and the extra token dropped — instead of failing with a format error as the
claim requires. -/
theorem C7_counterexample :
    parseRow rowBadTER = Except.ok ((("POPC"), ("A2")),
      { replaceresname := "PC", replaceatom := "B2", order := 1, natoms := 2,
        ter := false }) := by
  decide

def rowGood : CsvRow :=
  { search := "A2 POPC", replace := "B2 PC", order := "1", num_atom := "2", TER := "True" }

def rowShort : CsvRow :=
  { search := "A2", replace := "B2 PC", order := "1", num_atom := "2", TER := "True" }

theorem C7_witness :
    parseRow rowGood = Except.ok ((("POPC"), ("A2")),
      { replaceresname := "PC", replaceatom := "B2", order := 1, natoms := 2,
        ter := true }) ∧
    parseRow rowShort = Except.error BuildError.format ∧
    ((rdInsert [] ("POPC") ("A2") ruleA1).lookup ("POPC")).bind
      (fun am => am.lookup ("A2")) = some ruleA1 := by
  refine ⟨?_, ?_, (C7_row_parsing rowGood).2.2 [] ("POPC") ("A2") ruleA1⟩
  · have h := (C7_row_parsing rowGood).1 ("A2") ("POPC") [] ("B2") ("PC") [] 1 2
      (by decide) (by decide) (by decide) (by decide)
    simpa using h
  · exact (C7_row_parsing rowShort).2.1 (Or.inl (by decide))


/-! C8/C9: the build orchestrator.  A pass with `ionize=False` can never
recurse, so the ionization rebuild happens at most once; the working copy's
bond list is reset at entry and the generated script's bond directives come
from disulfide processing alone. -/

theorem exceptBind_ok {ε α β : Type} (a : α) (f : α → Except ε β) :
    (Except.ok a : Except ε α) >>= f = f a := rfl

theorem exceptBind_error {ε α β : Type} (e : ε) (f : α → Except ε β) :
    (Except.error e : Except ε α) >>= f = Except.error e := rfl

theorem build_single_pass (ext : Externals) (mol : Molecule) (cfg : BuildConfig)
    (hni : cfg.ionize = false) : (build ext mol cfg).1 = [cfg] := by
  unfold build
  split
  · rfl
  · rw [dif_neg (by simp [hni])]

theorem build_not_ionize_eq (ext : Externals) (mol : Molecule) (cfg : BuildConfig)
    (hni : cfg.ionize = false) :
    (build ext mol cfg).2 = (buildPass ext mol cfg).map (fun r => (r.1, r.2.1)) := by
  cases hbp : buildPass ext mol cfg with
  | error e =>
    unfold build
    rw [hbp]
    rfl
  | ok p =>
    obtain ⟨molp, script, w⟩ := p
    unfold build
    rw [hbp]
    dsimp only [Except.map]
    rw [dif_neg (by simp [hni])]

/-- C8: the ionization-triggered rebuild happens at most once per top-level
invocation: at most two passes run, and any second pass runs with ionization
disabled and capping disabled (`caps={}`), so it cannot trigger another
rebuild. -/
theorem C8_bounded_rebuild (ext : Externals) (mol : Molecule) (cfg : BuildConfig) :
    (build ext mol cfg).1.length ≤ 2 ∧
    ∀ c ∈ (build ext mol cfg).1.tail, c.ionize = false ∧ c.caps = some [] := by
  by_cases hio : cfg.ionize = true
  · unfold build
    cases hbp : buildPass ext mol cfg with
    | error e => simp
    | ok p =>
      obtain ⟨molp, script, w⟩ := p
      dsimp only
      by_cases hex : cfg.execute = true ∧ cfg.ionize = true
      · rw [dif_pos hex]
        dsimp only
        rw [build_single_pass ext (ext.ionizer molp)
          { cfg with ionize := false, caps := some [] } rfl]
        constructor
        · simp
        · intro c hc
          simp at hc
          subst hc
          exact ⟨rfl, rfl⟩
      · rw [dif_neg hex]
        simp
  · have hni : cfg.ionize = false := by simpa using hio
    rw [build_single_pass ext mol cfg hni]
    simp

theorem buildPass_bonds_irrelevant (ext : Externals) (mol : Molecule) (cfg : BuildConfig)
    (b1 b2 : List (Nat × Nat)) :
    buildPass ext { mol with bonds := b1 } cfg = buildPass ext { mol with bonds := b2 } cfg :=
  rfl

theorem buildPass_script_nobonds (ext : Externals) (mol0 : Molecule) (cfg : BuildConfig)
    (hd : cfg.disulfide = some []) (m : Molecule) (s : List Directive) (w : List String)
    (h : buildPass ext mol0 cfg = Except.ok (m, s, w)) :
    ∀ u1 u2, Directive.bond u1 u2 ∉ s := by
  unfold buildPass at h
  rw [hd] at h
  dsimp only at h
  cases hc : charmmLipid2Amber { mol0 with bonds := [] } ext.resdict with
  | error e =>
    rw [hc, exceptBind_error] at h
    exact Except.noConfusion h
  | ok mc =>
    rw [hc, exceptBind_ok] at h
    cases ha : applyCaps mc (cfg.caps.getD (defaultCaps ext { mol0 with bonds := [] })) with
    | error e =>
      rw [ha, exceptBind_error] at h
      exact Except.noConfusion h
    | ok mw =>
      rw [ha, exceptBind_ok] at h
      rw [if_neg (by simp), exceptBind_ok] at h
      rw [Except.ok.injEq, Prod.mk.injEq] at h
      obtain ⟨hm, hsw⟩ := h
      rw [Prod.mk.injEq] at hsw
      obtain ⟨hs, hw⟩ := hsw
      subst hs
      intro u1 u2 hmem
      simp [scriptLines, List.mem_append] at hmem

/-- C9: `build` works on a private copy whose bond list is reset at entry —
the caller-visible outcome is independent of the input's bond records — and
when there are no disulfide pairs the generated script contains no bond
directive at all: the only bond directives ever emitted come from disulfide
pairs. -/
theorem C9_private_copy_bonds_discarded (ext : Externals) (mol : Molecule)
    (cfg : BuildConfig) (bs : List (Nat × Nat)) :
    build ext { mol with bonds := bs } cfg = build ext { mol with bonds := [] } cfg ∧
    (cfg.disulfide = some [] →
      ∀ m s, (build ext mol cfg).2 = Except.ok (m, s) →
        ∀ u1 u2, Directive.bond u1 u2 ∉ s) := by
  constructor
  · unfold build
    rw [buildPass_bonds_irrelevant ext mol cfg bs []]
  · intro hd m s h u1 u2
    unfold build at h
    cases hbp : buildPass ext mol cfg with
    | error e =>
      rw [hbp] at h
      exact absurd h (by simp)
    | ok p =>
      obtain ⟨molp, script, w⟩ := p
      rw [hbp] at h
      dsimp only at h
      by_cases hex : cfg.execute = true ∧ cfg.ionize = true
      · rw [dif_pos hex] at h
        dsimp only at h
        have h2 : (build ext (ext.ionizer molp)
            { cfg with ionize := false, caps := some [] }).2 = Except.ok (m, s) := h
        rw [build_not_ionize_eq ext (ext.ionizer molp) _ rfl] at h2
        cases hbp2 : buildPass ext (ext.ionizer molp)
            { cfg with ionize := false, caps := some [] } with
        | error e =>
          rw [hbp2] at h2
          exact absurd h2 (by simp [Except.map])
        | ok p2 =>
          rw [hbp2] at h2
          obtain ⟨m2, s2, w2⟩ := p2
          have hms : m2 = m ∧ s2 = s := by
            rw [show Except.map (fun r => (r.1, r.2.1)) (Except.ok (m2, s2, w2))
              = Except.ok (m2, s2) from rfl] at h2
            simpa using h2
          rw [← hms.2]
          exact buildPass_script_nobonds ext (ext.ionizer molp)
            { cfg with ionize := false, caps := some [] } hd m2 s2 w2 hbp2 u1 u2
      · rw [dif_neg hex] at h
        dsimp only at h
        have hms : molp = m ∧ script = s := by simpa using h
        rw [← hms.2]
        exact buildPass_script_nobonds ext mol cfg hd molp script w hbp u1 u2

def extW : Externals :=
  { resdict := [], detect := fun _ => [], ionizer := fun mo => mo, protSegs := fun _ => [] }

def cfgW : BuildConfig :=
  { ff := ["leaprc.ff14SB"], topo := [], param := [], pfx := "structure",
    caps := some [], ionize := false, disulfide := some [], execute := false }

theorem C9_witness :
    build extW { molX with bonds := [(0, 1)] } cfgW = build extW { molX with bonds := [] } cfgW ∧
    (build extW molX cfgW).2 = Except.ok (molX, scriptLines cfgW []) ∧
    Directive.bond 1 2 ∉ scriptLines cfgW [] := by
  have hok : (build extW molX cfgW).2 = Except.ok (molX, scriptLines cfgW []) := by
    rw [build_not_ionize_eq extW molX cfgW rfl]
    rfl
  exact ⟨(C9_private_copy_bonds_discarded extW molX cfgW [(0, 1)]).1, hok,
    (C9_private_copy_bonds_discarded extW molX cfgW []).2 rfl molX
      (scriptLines cfgW []) hok 1 2⟩

end Amber
